import Mathlib

/-!
Shallow embedding of the spreadsheet validation core (`ExcelProcessor`) and the
fuzzy-search wrapper (`FuzzySearch`) of the EDV repository, together with
theorems settling the frozen claims about them.

Conventions of the embedding:
* JavaScript scalar cell values are modelled by `Value` (strings, numbers,
  booleans, `null`); an absent / `undefined` value is `Option.none`.
* Numbers are modelled as integers: every numeric literal appearing in the
  validation logic and in the claims is integral, and `String(n)` on an
  integral number agrees with decimal printing of the integer.
* A parsed row object (`obj[header] = row[index]`) is modelled as the
  association list of its assignments in header order; lookup takes the last
  binding, matching the overwrite semantics of object assignment.
-/

/-- A JavaScript scalar cell value (`null` included); `undefined` is `none`. -/
inductive Value where
  | str (s : String)
  | num (n : Int)
  | bool (b : Bool)
  | null
deriving DecidableEq, Repr

/-- A row object: the list of `obj[header] = value` assignments, in header
order.  `none` models an `undefined` right-hand side. -/
def Record := List (String × Option Value)

instance : DecidableEq Record := by unfold Record; infer_instance

instance : Repr Record := by unfold Record; infer_instance

instance : Inhabited Record := ⟨([] : List (String × Option Value))⟩

/-- Property read `row[header]`: the last assignment wins, as for JavaScript
object assignment; a key never assigned reads as `undefined` (`none`). -/
def getVal (r : Record) (h : String) : Option Value :=
  match (List.filter (fun p => p.1 == h) r).getLast? with
  | some p => p.2
  | none => none

/-- JavaScript `String(v)` on the modelled scalars. -/
def stringify : Value → String
  | .str s => s
  | .num n => toString n
  | .bool b => if b then "true" else "false"
  | .null => "null"

/-- JavaScript truthiness of a cell value (`undefined`, `null`, `''`, `0` and
`false` are falsy). -/
def truthy : Option Value → Bool
  | none => false
  | some .null => false
  | some (.str s) => !(s == "")
  | some (.num n) => n != 0
  | some (.bool b) => b

/-- The blank test of `validateRow`:
`value === undefined || value === null || value === ''`.
Note that only the empty string is compared; a whitespace-only string is not
blank under this test. -/
def isBlank : Option Value → Bool
  | none => true
  | some .null => true
  | some (.str s) => s == ""
  | some _ => false

/-- JavaScript `s.trim()`: strip whitespace from both ends (modelled on the
ASCII whitespace characters). -/
def trimStr (s : String) : String :=
  String.mk (((s.data.dropWhile Char.isWhitespace).reverse.dropWhile Char.isWhitespace).reverse)

/-- JavaScript `s.toLowerCase()`. -/
def lowerStr (s : String) : String :=
  String.mk (s.data.map Char.toLower)

/-- `String(value).trim()`, the stringified trimmed value a non-blank cell is
validated on.  (The `.getD .null` default is never hit on non-blank cells.) -/
def cellString (v : Option Value) : String :=
  trimStr (stringify (v.getD .null))

/-- Substring test on character lists: some suffix of `l` starts with `pat`. -/
def listContains (pat : List Char) : List Char → Bool
  | [] => pat.isEmpty
  | c :: rest => pat.isPrefixOf (c :: rest) || listContains pat rest

/-- JavaScript `s.includes(pat)`. -/
def strContains (s pat : String) : Bool :=
  listContains pat.data s.data

/-- Split a character list at every occurrence of a separator character
(the single-character case of `String.split` / `splitOn`). -/
def splitAtAll (sep : Char) : List Char → List (List Char)
  | [] => [[]]
  | c :: rest =>
    let ps := splitAtAll sep rest
    if c == sep then [] :: ps
    else
      match ps with
      | p :: ps2 => (c :: p) :: ps2
      | [] => [[c]]

/-- Domain side of the email pattern: `[^\s@]+\.[^\s@]+` as a full match of a
string already free of `@` (it is one piece of a split at `@`): every
character is non-whitespace and some `.` occurs at an interior position. -/
def domainOk (cs : List Char) : Bool :=
  cs.all (fun c => !c.isWhitespace) &&
  (List.range cs.length).any
    (fun i => cs.getD i ' ' == '.' && decide (1 ≤ i) && decide (i + 2 ≤ cs.length))

/-- `validateEmail`: full match of `^[^\s@]+@[^\s@]+\.[^\s@]+$`.  The string
must split at `@` into exactly two pieces (so `@` occurs exactly once), the
local part nonempty and whitespace-free, and the domain as in `domainOk`. -/
def validateEmail (s : String) : Bool :=
  match splitAtAll '@' s.data with
  | [loc, dom] =>
      !loc.isEmpty && (loc.all (fun c => !c.isWhitespace)) && domainOk dom
  | _ => false

/-- `validatePhone`: strip non-digits (`replace(/\D/g,'')`), require exactly
ten digits (`/^\d{10}$/`). -/
def validatePhone (s : String) : Bool :=
  (s.data.filter Char.isDigit).length == 10

/-- One-or-more decimal digits. -/
def allDigits (cs : List Char) : Bool :=
  !cs.isEmpty && cs.all Char.isDigit

/-- Decimal mantissa: `digits`, `digits.`, `digits.digits`, or `.digits`. -/
def mantissaOk (cs : List Char) : Bool :=
  match cs.span Char.isDigit with
  | (intPart, []) => !intPart.isEmpty
  | (intPart, '.' :: frac) =>
      (!intPart.isEmpty || !frac.isEmpty) && frac.all Char.isDigit
  | _ => false

/-- Split a character list at the first exponent marker `e`/`E`, if any. -/
def splitAtExp : List Char → List Char × Option (List Char)
  | [] => ([], none)
  | c :: rest =>
    if c == 'e' || c == 'E' then ([], some rest)
    else
      let p := splitAtExp rest
      (c :: p.1, p.2)

/-- Optionally signed digit block (an exponent). -/
def signedDigits (cs : List Char) : Bool :=
  match cs with
  | '+' :: rest => allDigits rest
  | '-' :: rest => allDigits rest
  | _ => allDigits cs

/-- Optionally signed decimal literal with optional exponent. -/
def isDecimalLit (cs : List Char) : Bool :=
  let body := match cs with
    | '+' :: rest => rest
    | '-' :: rest => rest
    | _ => cs
  match splitAtExp body with
  | (m, none) => mantissaOk m
  | (m, some e) => mantissaOk m && signedDigits e

/-- `validateNumeric`: `!isNaN(Number(value)) && isFinite(Number(value))`.
The host coercion `Number` is modelled on its decimal fragment: surrounding
whitespace is trimmed, the empty string coerces to `0` (finite, so it
passes), a signed decimal literal with optional exponent is a finite number,
and everything else (including `Infinity`, which `isFinite` rejects) fails.
Host-specific hex/octal/binary literal forms are not modelled. -/
def validateNumeric (s : String) : Bool :=
  let t := trimStr s
  t == "" || isDecimalLit t.data

/-- `validateDate` calls the host date parser (`new Date(dateStr)`) and
accepts any value whose parse is not `NaN`; the host parser is
environment-defined.  It is modelled as accepting exactly `YYYY-MM-DD`
strings with month 01-12 and day 01-31, and rejecting the empty string as the
source does explicitly (`if (!dateStr) return false`). -/
def validateDate (s : String) : Bool :=
  if s == "" then false
  else match s.data with
    | [y1, y2, y3, y4, '-', m1, m2, '-', d1, d2] =>
        [y1, y2, y3, y4, m1, m2, d1, d2].all Char.isDigit &&
        (let m := (m1.toNat - 48) * 10 + (m2.toNat - 48)
         let d := (d1.toNat - 48) * 10 + (d2.toNat - 48)
         decide (1 ≤ m) && decide (m ≤ 12) && decide (1 ≤ d) && decide (d ≤ 31))
    | _ => false

/-- Column classifier: `header.toLowerCase().includes('email')`. -/
def isEmailCol (h : String) : Bool := strContains (lowerStr h) "email"

/-- Column classifier: contains `phone` or `mobile`. -/
def isPhoneCol (h : String) : Bool :=
  strContains (lowerStr h) "phone" || strContains (lowerStr h) "mobile"

/-- Column classifier: contains `age`, `number`, or `numeric`. -/
def isNumericCol (h : String) : Bool :=
  strContains (lowerStr h) "age" || strContains (lowerStr h) "number" ||
  strContains (lowerStr h) "numeric"

/-- Column classifier: contains `date`. -/
def isDateCol (h : String) : Bool := strContains (lowerStr h) "date"

/-- Identity-column classifier: contains `id`, `registration`, or `unique`. -/
def isIdentityCol (h : String) : Bool :=
  strContains (lowerStr h) "id" || strContains (lowerStr h) "registration" ||
  strContains (lowerStr h) "unique"

/-- Column letters of `getCellAddress`: the loop
`while (col >= 0) { result = chr(65 + col % 26) + result; col = col / 26 - 1 }`.
The recursion is driven by a fuel argument so that it is structural; `col`
strictly decreases across iterations, so `col + 1` units of fuel always
suffice and the `fuel = 0` fallback is unreachable. -/
def colLettersGo (fuel : Nat) (col : Nat) : String :=
  match fuel with
  | 0 => ""
  | fuel + 1 =>
    if col < 26 then String.singleton (Char.ofNat (65 + col % 26))
    else colLettersGo fuel (col / 26 - 1) ++ String.singleton (Char.ofNat (65 + col % 26))

/-- Spreadsheet column letters for a 0-indexed column. -/
def colLetters (col : Nat) : String := colLettersGo (col + 1) col

/-- `getCellAddress(row, col)`: column letters followed by `row + 1`. -/
def getCellAddress (row col : Nat) : String :=
  colLetters col ++ toString (row + 1)

/-- The error kinds of `ValidationError.type`. -/
inductive ErrKind where
  | phone | email | blank | numeric | date | unique
deriving DecidableEq, Repr

/-- The `ValidationError` record. -/
structure ValidationError where
  cellAddress : String
  row : Nat
  column : String
  message : String
  type : ErrKind
deriving DecidableEq, Repr

/-- The errors `validateRow` pushes for one cell: the blank short-circuit,
then the four independent keyword-gated rule checks in source order. -/
def cellErrors (rowIndex colIndex : Nat) (header : String) (value : Option Value) :
    List ValidationError :=
  let addr := getCellAddress (rowIndex + 1) colIndex
  if isBlank value then
    [⟨addr, rowIndex + 2, header, "This field cannot be empty", .blank⟩]
  else
    let sv := cellString value
    (if isEmailCol header && !validateEmail sv then
      [⟨addr, rowIndex + 2, header, "Invalid email format", .email⟩] else []) ++
    (if isPhoneCol header && !validatePhone sv then
      [⟨addr, rowIndex + 2, header, "Phone number must be exactly 10 digits", .phone⟩] else []) ++
    (if isNumericCol header && !validateNumeric sv then
      [⟨addr, rowIndex + 2, header, "Must be a valid number", .numeric⟩] else []) ++
    (if isDateCol header && !validateDate sv then
      [⟨addr, rowIndex + 2, header, "Invalid date format", .date⟩] else [])

/-- The `headers.forEach` loop of `validateRow`, carrying the running column
index. -/
def validateCells (r : Record) (rowIndex : Nat) : Nat → List String → List ValidationError
  | _, [] => []
  | j, h :: hs => cellErrors rowIndex j h (getVal r h) ++ validateCells r rowIndex (j + 1) hs

/-- `validateRow(rowData, headers, rowIndex)`. -/
def validateRow (r : Record) (headers : List String) (rowIndex : Nat) :
    List ValidationError :=
  validateCells r rowIndex 0 headers

/-- `String(row[header] || '').trim()`, the key of the uniqueness pass. -/
def uniqueValue (r : Record) (h : String) : String :=
  trimStr (if truthy (getVal r h) then stringify ((getVal r h).getD .null) else "")

/-- The `data.forEach` loop of `checkUniqueConstraints` for one identity
column: `seen` maps each value to the row index of its first occurrence; a
repeat of a nonempty value emits a `unique` error naming the first
occurrence and leaves `seen` unchanged. -/
def uniqueScan (header : String) (colIndex : Nat) :
    List (String × Nat) → Nat → List Record → List ValidationError
  | _, _, [] => []
  | seen, rowIndex, r :: rest =>
    let v := uniqueValue r header
    if v == "" then uniqueScan header colIndex seen (rowIndex + 1) rest
    else
      match seen.find? (fun p => p.1 == v) with
      | some p =>
          ⟨getCellAddress (rowIndex + 1) colIndex, rowIndex + 2, header,
            "Duplicate value found (also in row " ++ toString (p.2 + 2) ++ ")",
            .unique⟩ :: uniqueScan header colIndex seen (rowIndex + 1) rest
      | none => uniqueScan header colIndex ((v, rowIndex) :: seen) (rowIndex + 1) rest

/-- The `headers.forEach` loop of `checkUniqueConstraints`, carrying the
running column index. -/
def checkUniqueCols (data : List Record) : Nat → List String → List ValidationError
  | _, [] => []
  | c, h :: hs =>
    (if isIdentityCol h then uniqueScan h c [] 0 data else []) ++
    checkUniqueCols data (c + 1) hs

/-- `checkUniqueConstraints(data, headers)`. -/
def checkUniqueConstraints (data : List Record) (headers : List String) :
    List ValidationError :=
  checkUniqueCols data 0 headers

/-- The row-by-row pass of `processFile`, concatenating `validateRow` results
in row order. -/
def rowErrorsFrom (headers : List String) : Nat → List Record → List ValidationError
  | _, [] => []
  | i, r :: rest => validateRow r headers i ++ rowErrorsFrom headers (i + 1) rest

/-- All validation errors of one upload: the row-by-row pass followed by the
uniqueness pass, exactly as `processFile` concatenates them. -/
def validateAll (headers : List String) (data : List Record) : List ValidationError :=
  rowErrorsFrom headers 0 data ++ checkUniqueConstraints data headers

/-- Building one row object: `headers.forEach((header, index) => obj[header] = row[index])`;
an index beyond the row's length reads as `undefined`. -/
def mkRecord (headers : List String) (row : List (Option Value)) : Record :=
  headers.enum.map (fun p => (p.2, row.getD p.1 none))

/-- Sort-column heuristic: name contains `name` or `title`, case-insensitively. -/
def isNameTitleCol (h : String) : Bool :=
  strContains (lowerStr h) "name" || strContains (lowerStr h) "title"

/-- `headers.find(h => ...name/title...) || headers[0]`.  On an empty header
list the source reads `undefined`; that unreachable edge is modelled as `""`. -/
def nameColumn (headers : List String) : String :=
  (headers.find? isNameTitleCol).getD (headers.getD 0 "")

/-- The sort key `String(a[nameColumn] || '').toLowerCase()`.  The host's
locale-aware `localeCompare` on these case-folded keys is modelled as
code-point lexicographic order on the case-folded keys. -/
def sortKeyOf (col : String) (r : Record) : String :=
  lowerStr (if truthy (getVal r col) then stringify ((getVal r col).getD .null) else "")

/-- The stable sort `[...objectData].sort((a, b) => aVal.localeCompare(bVal))`
(JavaScript `Array.prototype.sort` is stable), modelled by the stable
`List.mergeSort` under the modelled comparator. -/
def sortRecords (col : String) (data : List Record) : List Record :=
  data.mergeSort (fun a b => decide (sortKeyOf col a ≤ sortKeyOf col b))

/-- The `data` component of a successful `ProcessResult`. -/
structure SheetData where
  headers : List String
  rows : List (List (Option Value))
  originalData : List Record
deriving DecidableEq, Repr

/-- The `ProcessResult` record. -/
structure ProcessResult where
  data : Option SheetData
  errors : List ValidationError
deriving DecidableEq, Repr

/-- The core of `processFile` after the external spreadsheet decoding: build
the row objects, run both validation passes, and either return all errors
with no dataset, or sort by the heuristic name column and return the dataset
with an empty error list. -/
def processFile (headers : List String) (dataRows : List (List (Option Value))) :
    ProcessResult :=
  let objectData := dataRows.map (mkRecord headers)
  let allErrors := validateAll headers objectData
  if allErrors.length > 0 then ⟨none, allErrors⟩
  else
    let nameCol := nameColumn headers
    let sortedData := sortRecords nameCol objectData
    ⟨some ⟨headers, sortedData.map (fun r => headers.map (getVal r)), sortedData⟩, []⟩

/-- One raw result of the external approximate-matching collaborator (the
`Fuse` library): only its `item` field is consumed by the wrapper. -/
structure FuseResult where
  item : Record
deriving DecidableEq, Repr

/-- `FuzzySearch.search(query)`: an empty or whitespace-only query returns
`[]` before the engine is consulted (`if (!query.trim()) return []`);
otherwise the collaborator's ranked results are mapped to their items.  The
external engine itself is a parameter. -/
def FuzzySearch.search (fuse : String → List FuseResult) (query : String) :
    List Record :=
  if trimStr query == "" then [] else (fuse query).map (fun r => r.item)

/-- All rules the classifier associates with column `h` pass on the
stringified trimmed value `sv` (used to phrase hypotheses about clean
cells). -/
def rulesPass (h : String) (sv : String) : Bool :=
  (!isEmailCol h || validateEmail sv) && (!isPhoneCol h || validatePhone sv) &&
  (!isNumericCol h || validateNumeric sv) && (!isDateCol h || validateDate sv)

/-- The 0-indexed column position an error refers to, recovered from its
column name (well defined when headers are distinct). -/
def colIdxOf (hs : List String) (e : ValidationError) : Nat :=
  hs.indexOf e.column

/-- Row-major order on errors: by display row, then by column position. -/
def rowMajorLE (hs : List String) (e1 e2 : ValidationError) : Prop :=
  e1.row < e2.row ∨ (e1.row = e2.row ∧ colIdxOf hs e1 ≤ colIdxOf hs e2)

/-- Column-major order on errors: by column position, then (strictly) by
display row. -/
def colMajorLT (hs : List String) (e1 e2 : ValidationError) : Prop :=
  colIdxOf hs e1 < colIdxOf hs e2 ∨
    (colIdxOf hs e1 = colIdxOf hs e2 ∧ e1.row < e2.row)

instance (hs : List String) (e1 e2 : ValidationError) :
    Decidable (rowMajorLE hs e1 e2) := by unfold rowMajorLE; infer_instance

instance (hs : List String) (e1 e2 : ValidationError) :
    Decidable (colMajorLT hs e1 e2) := by unfold colMajorLT; infer_instance

/-! ### Basic facts about the per-cell errors -/

theorem cellErrors_row_col {i j : Nat} {h : String} {v : Option Value}
    {e : ValidationError} (he : e ∈ cellErrors i j h v) :
    e.row = i + 2 ∧ e.column = h := by
  unfold cellErrors at he
  split at he
  · simp only [List.mem_singleton] at he
    subst he; exact ⟨rfl, rfl⟩
  · simp only [List.mem_append] at he
    rcases he with (((he | he) | he) | he) <;>
      (split at he <;>
        simp only [List.mem_singleton, List.not_mem_nil] at he) <;>
      (subst he; exact ⟨rfl, rfl⟩)

theorem cellErrors_not_unique {i j : Nat} {h : String} {v : Option Value}
    {e : ValidationError} (he : e ∈ cellErrors i j h v) :
    e.type ≠ ErrKind.unique := by
  unfold cellErrors at he
  split at he
  · simp only [List.mem_singleton] at he
    subst he; intro hc; cases hc
  · simp only [List.mem_append] at he
    rcases he with (((he | he) | he) | he) <;>
      (split at he <;>
        simp only [List.mem_singleton, List.not_mem_nil] at he) <;>
      (subst he; intro hc; cases hc)

theorem validateCells_row_col {r : Record} {i : Nat} :
    ∀ {cur : List String} {j : Nat} {e : ValidationError},
      e ∈ validateCells r i j cur → e.row = i + 2 ∧ e.column ∈ cur
  | [], _, _, he => absurd he (List.not_mem_nil _)
  | h :: rest, j, e, he => by
    simp only [validateCells, List.mem_append] at he
    rcases he with he | he
    · obtain ⟨h1, h2⟩ := cellErrors_row_col he
      exact ⟨h1, h2 ▸ List.mem_cons_self h rest⟩
    · obtain ⟨h1, h2⟩ := validateCells_row_col he
      exact ⟨h1, List.mem_cons_of_mem h h2⟩

theorem filter_validateCells_not_mem {r : Record} {i : Nat} {h : String} :
    ∀ {cur : List String} {j : Nat}, h ∉ cur →
      (validateCells r i j cur).filter (fun e => e.column == h) = [] := by
  intro cur j hnm
  rw [List.filter_eq_nil_iff]
  intro e he
  have := (validateCells_row_col he).2
  simp only [beq_iff_eq]
  intro hc
  exact hnm (hc ▸ this)

/-- If the cell of column `h` is blank (absent, `null`, or the empty string),
the per-cell errors attributed to that column are exactly one `blank` error. -/
theorem filter_validateCells_blank {r : Record} {i : Nat} {h : String} :
    ∀ {cur : List String} (j : Nat), cur.Nodup → h ∈ cur →
      isBlank (getVal r h) = true →
      (validateCells r i j cur).filter (fun e => e.column == h) =
        [⟨getCellAddress (i + 1) (j + cur.indexOf h), i + 2, h,
          "This field cannot be empty", ErrKind.blank⟩]
  | [], _, _, hmem, _ => absurd hmem (List.not_mem_nil _)
  | h' :: rest, j, hnd, hmem, hb => by
    simp only [validateCells, List.filter_append]
    by_cases hh : h' = h
    · subst hh
    -- the head column is the blank cell; the tail contains no column named `h'`
      have hrest : h' ∉ rest := (List.nodup_cons.mp hnd).1
      rw [filter_validateCells_not_mem hrest]
      unfold cellErrors
      rw [if_pos hb]
      simp [List.indexOf_cons_self]
    · have hmem' : h ∈ rest := by
        rcases List.mem_cons.mp hmem with hc | hc
        · exact absurd hc.symm hh
        · exact hc
      have hfil : (cellErrors i j h' (getVal r h')).filter (fun e => e.column == h) = [] := by
        rw [List.filter_eq_nil_iff]
        intro e he
        have := (cellErrors_row_col he).2
        simp only [beq_iff_eq]
        intro hc
        exact hh (this ▸ hc)
      rw [hfil, List.nil_append,
        filter_validateCells_blank (j + 1) (List.nodup_cons.mp hnd).2 hmem' hb]
      have harith : j + 1 + rest.indexOf h = j + (h' :: rest).indexOf h := by
        rw [List.indexOf_cons_ne rest (Ne.symm (fun hc => hh hc.symm))]
        omega
      rw [harith]

/-- C1, amended: for every record and header list, a cell whose raw value is
absent, `null`, or the empty string yields exactly one `blank`-kind error for
that cell and no error of any other kind (the blank check short-circuits all
further rule checks for the cell).  A whitespace-only but nonempty string is
not blank under the source's test `value === ''`. -/
theorem blank_cell_exactly_one_error (hs : List String) (r : Record) (i : Nat)
    (h : String) (hnd : hs.Nodup) (hmem : h ∈ hs)
    (hb : isBlank (getVal r h) = true) :
    (validateRow r hs i).filter (fun e => e.column == h) =
      [⟨getCellAddress (i + 1) (hs.indexOf h), i + 2, h,
        "This field cannot be empty", ErrKind.blank⟩] := by
  unfold validateRow
  have := @filter_validateCells_blank r i h hs 0 hnd hmem hb
  simpa using this

/-- Witness for the amended C1: a record whose `email` cell is absent gets
exactly the one `blank` error for that cell. -/
theorem blank_cell_exactly_one_error_witness :
    (validateRow [("email", none)] ["name", "email"] 0).filter
        (fun e => e.column == "email") =
      [⟨"B2", 2, "email", "This field cannot be empty", ErrKind.blank⟩] := by
  have := blank_cell_exactly_one_error ["name", "email"]
    [("email", none)] 0 "email" (by decide) (by decide) (by decide)
  simpa using this

/-- Counterexample to C1 as stated: the value `" "` is a whitespace-only
string (its trim is empty), yet `validateRow` emits no error at all for it —
in particular not exactly one `blank` error. -/
theorem whitespace_only_not_blank_cex :
    trimStr " " = "" ∧
      validateRow [("x", some (Value.str " "))] ["x"] 0 = [] := by
  exact ⟨by decide, by decide⟩

/-- C5: cell addresses are spreadsheet-style.  Column index 0 is `A`, 25 is
`Z`, 26 is `AA`; the address of a cell in data row 0 carries display row 2,
and the error emitted for data row 0 carries display row 2 as well (the
header row occupies row 1). -/
theorem cell_address_spec :
    colLetters 0 = "A" ∧ colLetters 25 = "Z" ∧ colLetters 26 = "AA" ∧
    getCellAddress 1 0 = "A2" ∧
    validateRow [("h", none)] ["h"] 0 =
      [⟨"A2", 2, "h", "This field cannot be empty", ErrKind.blank⟩] := by
  refine ⟨by decide, by decide, by decide, by decide, by decide⟩

/-- C3: processing is all-or-nothing.  Either the error list is nonempty and
no dataset is produced, or the error list is empty and a dataset is
produced; a dataset never coexists with a nonempty error list. -/
theorem all_or_nothing (hs : List String) (rows : List (List (Option Value))) :
    ((processFile hs rows).errors = [] ∧ ∃ d, (processFile hs rows).data = some d) ∨
    ((processFile hs rows).errors ≠ [] ∧ (processFile hs rows).data = none) := by
  simp only [processFile]
  split
  · next hlen =>
    right
    refine ⟨?_, rfl⟩
    intro hc
    have hnil : validateAll hs (rows.map (mkRecord hs)) = [] := hc
    rw [hnil] at hlen
    simp at hlen
  · next =>
    left
    exact ⟨rfl, _, rfl⟩

/-- C9: an empty or whitespace-only query returns the empty result by policy
before the engine is consulted, and an unmatched query (the engine returns
no results) likewise returns the empty result; `search` is a total function
with no failure states. -/
theorem empty_query_empty_result (fuse : String → List FuseResult) (q : String) :
    (trimStr q = "" → FuzzySearch.search fuse q = []) ∧
    (fuse q = [] → FuzzySearch.search fuse q = []) := by
  constructor
  · intro hq
    unfold FuzzySearch.search
    rw [hq]
    simp
  · intro hf
    unfold FuzzySearch.search
    rw [hf]
    simp

/-- Witness for C9 at a concrete whitespace-only query and a concrete engine. -/
theorem empty_query_empty_result_witness :
    trimStr "  " = "" ∧ FuzzySearch.search (fun _ => []) "  " = [] :=
  ⟨by decide, (empty_query_empty_result (fun _ => []) "  ").1 (by decide)⟩

/-- C10: the uniqueness pass skips falsy raw identity values before
stringification.  Two rows holding the number `0` (whose stringified trimmed
values are both `"0"`) produce no `unique` error, and likewise the boolean
`false`; by contrast the truthy string `"0"` duplicated across two rows is
flagged. -/
theorem falsy_identity_values_skipped :
    checkUniqueConstraints
        [[("id", some (Value.num 0))], [("id", some (Value.num 0))]] ["id"] = [] ∧
    trimStr (stringify (Value.num 0)) = "0" ∧
    checkUniqueConstraints
        [[("id", some (Value.bool false))], [("id", some (Value.bool false))]] ["id"] = [] ∧
    checkUniqueConstraints
        [[("id", some (Value.str "0"))], [("id", some (Value.str "0"))]] ["id"] =
      [⟨"A3", 3, "id", "Duplicate value found (also in row 2)", ErrKind.unique⟩] := by
  refine ⟨by decide, by decide, by decide, by decide⟩

/-! ### Independence of the per-cell rules -/

theorem exists_type_append (l1 l2 : List ValidationError) (t : ErrKind) :
    (∃ e ∈ l1 ++ l2, e.type = t) ↔
      (∃ e ∈ l1, e.type = t) ∨ (∃ e ∈ l2, e.type = t) := by
  constructor
  · rintro ⟨e, he, ht⟩
    rcases List.mem_append.mp he with hm | hm
    · exact Or.inl ⟨e, hm, ht⟩
    · exact Or.inr ⟨e, hm, ht⟩
  · rintro (⟨e, hm, ht⟩ | ⟨e, hm, ht⟩)
    · exact ⟨e, List.mem_append.mpr (Or.inl hm), ht⟩
    · exact ⟨e, List.mem_append.mpr (Or.inr hm), ht⟩

theorem exists_type_ite_single (c : Prop) [Decidable c] (err : ValidationError)
    (t : ErrKind) :
    (∃ e ∈ (if c then [err] else []), e.type = t) ↔ (c ∧ err.type = t) := by
  split
  · next hc => simp_all
  · next hc => simp_all

/-- C8: for a non-blank cell, every rule whose keyword matches the column
name is checked independently of the others; an error of a given kind is
present exactly when that kind's rule matches the column and its validator
fails on the trimmed stringified value.  Concretely, a column named
`email_number` holding `"abc"` yields both an email error and a numeric
error for the same cell. -/
theorem rules_checked_independently (i j : Nat) (h : String) (v : Option Value)
    (hb : isBlank v = false) :
    ((∃ e ∈ cellErrors i j h v, e.type = ErrKind.email) ↔
      isEmailCol h = true ∧ validateEmail (cellString v) = false) ∧
    ((∃ e ∈ cellErrors i j h v, e.type = ErrKind.phone) ↔
      isPhoneCol h = true ∧ validatePhone (cellString v) = false) ∧
    ((∃ e ∈ cellErrors i j h v, e.type = ErrKind.numeric) ↔
      isNumericCol h = true ∧ validateNumeric (cellString v) = false) ∧
    ((∃ e ∈ cellErrors i j h v, e.type = ErrKind.date) ↔
      isDateCol h = true ∧ validateDate (cellString v) = false) ∧
    validateRow [("email_number", some (Value.str "abc"))] ["email_number"] 0 =
      [⟨"A2", 2, "email_number", "Invalid email format", ErrKind.email⟩,
       ⟨"A2", 2, "email_number", "Must be a valid number", ErrKind.numeric⟩] := by
  refine ⟨?_, ?_, ?_, ?_, by decide⟩ <;>
  · unfold cellErrors
    rw [hb]
    simp only [Bool.false_eq_true, if_false, exists_type_append, exists_type_ite_single]
    simp [Bool.and_eq_true, Bool.not_eq_true']

/-- Witness for C8: the `email_number` column with value `"abc"` produces an
email error (its cell is non-blank and the email validator fails). -/
theorem rules_checked_independently_witness :
    ∃ e ∈ cellErrors 0 0 "email_number" (some (Value.str "abc")),
      e.type = ErrKind.email :=
  ((rules_checked_independently 0 0 "email_number" (some (Value.str "abc"))
    (by decide)).1).mpr (by decide)

/-! ### Clean data yields no errors -/

theorem cellErrors_eq_nil {i j : Nat} {h : String} {v : Option Value}
    (hb : isBlank v = false) (hr : rulesPass h (cellString v) = true) :
    cellErrors i j h v = [] := by
  unfold cellErrors
  rw [hb]
  simp only [Bool.false_eq_true, if_false]
  unfold rulesPass at hr
  simp only [Bool.and_eq_true, Bool.or_eq_true, Bool.not_eq_true'] at hr
  obtain ⟨⟨⟨he, hp⟩, hn⟩, hd⟩ := hr
  rcases he with he | he <;> rcases hp with hp | hp <;>
    rcases hn with hn | hn <;> rcases hd with hd | hd <;>
    simp [he, hp, hn, hd]

theorem validateCells_eq_nil {r : Record} {i : Nat} :
    ∀ {cur : List String} (j : Nat),
      (∀ h ∈ cur, isBlank (getVal r h) = false ∧
        rulesPass h (cellString (getVal r h)) = true) →
      validateCells r i j cur = []
  | [], _, _ => rfl
  | h :: rest, j, hall => by
    simp only [validateCells]
    have h1 := hall h (List.mem_cons_self h rest)
    rw [cellErrors_eq_nil h1.1 h1.2, List.nil_append]
    exact validateCells_eq_nil (j + 1) (fun h2 hm => hall h2 (List.mem_cons_of_mem h hm))

theorem rowErrorsFrom_eq_nil {hs : List String} :
    ∀ {data : List Record} (i : Nat),
      (∀ r ∈ data, ∀ h ∈ hs, isBlank (getVal r h) = false ∧
        rulesPass h (cellString (getVal r h)) = true) →
      rowErrorsFrom hs i data = []
  | [], _, _ => rfl
  | r :: rest, i, hall => by
    simp only [rowErrorsFrom]
    unfold validateRow
    rw [validateCells_eq_nil 0 (fun h hm => hall r (List.mem_cons_self r rest) h hm),
      List.nil_append]
    exact rowErrorsFrom_eq_nil (i + 1) (fun r2 hm => hall r2 (List.mem_cons_of_mem r hm))

theorem uniqueScan_eq_nil {h : String} {c : Nat} :
    ∀ {data : List Record} (seen : List (String × Nat)) (i : Nat),
      (∀ r ∈ data, uniqueValue r h ≠ "" →
        seen.find? (fun p => p.1 == uniqueValue r h) = none) →
      data.Pairwise (fun r1 r2 =>
        uniqueValue r1 h = "" ∨ uniqueValue r1 h ≠ uniqueValue r2 h) →
      uniqueScan h c seen i data = []
  | [], _, _, _, _ => rfl
  | r :: rest, seen, i, hseen, hpw => by
    simp only [uniqueScan]
    by_cases hv : uniqueValue r h = ""
    · rw [if_pos (by simp [hv])]
      exact uniqueScan_eq_nil seen (i + 1)
        (fun r2 hm => hseen r2 (List.mem_cons_of_mem r hm))
        (List.Pairwise.of_cons hpw)
    · rw [if_neg (by simp [hv])]
      rw [hseen r (List.mem_cons_self r rest) hv]
      exact uniqueScan_eq_nil ((uniqueValue r h, i) :: seen) (i + 1)
        (fun r2 hm hv2 => by
          have hrel := (List.pairwise_cons.mp hpw).1 r2 hm
          rcases hrel with hrel | hrel
          · exact absurd hrel hv
          · have hbeq : ((uniqueValue r h, i).1 == uniqueValue r2 h) = false := by
              simpa using hrel
            simp only [List.find?_cons, hbeq]
            exact hseen r2 (List.mem_cons_of_mem r hm) hv2)
        (List.Pairwise.of_cons hpw)

theorem checkUniqueCols_eq_nil {data : List Record} :
    ∀ {cur : List String} (c : Nat),
      (∀ h ∈ cur, isIdentityCol h = true →
        data.Pairwise (fun r1 r2 =>
          uniqueValue r1 h = "" ∨ uniqueValue r1 h ≠ uniqueValue r2 h)) →
      checkUniqueCols data c cur = []
  | [], _, _ => rfl
  | h :: rest, c, hall => by
    simp only [checkUniqueCols]
    have htail := checkUniqueCols_eq_nil (c + 1)
      (fun h2 hm => hall h2 (List.mem_cons_of_mem h hm))
    rw [htail, List.append_nil]
    by_cases hid : isIdentityCol h
    · rw [if_pos hid]
      exact uniqueScan_eq_nil [] 0 (fun _ _ _ => rfl)
        (hall h (List.mem_cons_self h rest) hid)
    · rw [if_neg hid]

/-- C2: if every cell of every record is non-blank and passes every rule its
column name is classified into, and no identity column holds the same
nonempty trimmed stringified value in two different rows, then validation
returns the empty error sequence. -/
theorem clean_data_no_errors (hs : List String) (data : List Record)
    (hcell : ∀ h ∈ hs, ∀ r ∈ data, isBlank (getVal r h) = false ∧
      rulesPass h (cellString (getVal r h)) = true)
    (huniq : ∀ h ∈ hs, isIdentityCol h = true →
      data.Pairwise (fun r1 r2 =>
        uniqueValue r1 h = "" ∨ uniqueValue r1 h ≠ uniqueValue r2 h)) :
    validateAll hs data = [] := by
  unfold validateAll
  rw [rowErrorsFrom_eq_nil 0 (fun r hr h hm => hcell h hm r hr), List.nil_append]
  unfold checkUniqueConstraints
  exact checkUniqueCols_eq_nil 0 huniq

/-- Witness for C2: a two-row dataset with a name column, a valid email, and
distinct identity values validates without errors. -/
theorem clean_data_no_errors_witness :
    validateAll ["Name", "Email", "user id"]
      [[("Name", some (Value.str "Alice")), ("Email", some (Value.str "a@x.com")),
        ("user id", some (Value.str "1"))],
       [("Name", some (Value.str "Bob")), ("Email", some (Value.str "b@x.com")),
        ("user id", some (Value.str "2"))]] = [] :=
  clean_data_no_errors _ _ (by decide) (by decide)

/-! ### The uniqueness pass -/

theorem uniqueScan_mem {h : String} {c : Nat} {seen : List (String × Nat)}
    {i : Nat} {data : List Record} {e : ValidationError}
    (he : e ∈ uniqueScan h c seen i data) :
    ∃ k, k < data.length ∧ e.row = i + k + 2 ∧
      uniqueValue (data.getD k default) h ≠ "" ∧
      ((∃ p ∈ seen, p.1 = uniqueValue (data.getD k default) h) ∨
       ∃ j < k, uniqueValue (data.getD j default) h =
         uniqueValue (data.getD k default) h) := by
  induction data generalizing seen i with
  | nil => exact absurd he (List.not_mem_nil _)
  | cons r rest ih =>
    simp only [uniqueScan] at he
    by_cases hv : uniqueValue r h = ""
    · rw [if_pos (by simp [hv])] at he
      obtain ⟨k, hk, hrow, hne, hor⟩ := ih he
      refine ⟨k + 1, by simpa using Nat.succ_lt_succ hk, by omega, by simpa using hne, ?_⟩
      rcases hor with hs | ⟨j, hj, heq⟩
      · left; simpa using hs
      · right; exact ⟨j + 1, by omega, by simpa using heq⟩
    · rw [if_neg (by simp [hv])] at he
      cases hfind : seen.find? (fun p => p.1 == uniqueValue r h) with
      | some p =>
        rw [hfind] at he
        rcases List.mem_cons.mp he with he | he
        · subst he
          refine ⟨0, by simp, by simp, by simpa using hv, ?_⟩
          left
          refine ⟨p, List.mem_of_find?_eq_some hfind, ?_⟩
          have := List.find?_some hfind
          simpa using this
        · obtain ⟨k, hk, hrow, hne, hor⟩ := ih he
          refine ⟨k + 1, by simpa using Nat.succ_lt_succ hk, by omega,
            by simpa using hne, ?_⟩
          rcases hor with hs | ⟨j, hj, heq⟩
          · left; simpa using hs
          · right; exact ⟨j + 1, by omega, by simpa using heq⟩
      | none =>
        rw [hfind] at he
        obtain ⟨k, hk, hrow, hne, hor⟩ := ih he
        refine ⟨k + 1, by simpa using Nat.succ_lt_succ hk, by omega,
          by simpa using hne, ?_⟩
        rcases hor with ⟨p, hp, hpeq⟩ | ⟨j, hj, heq⟩
        · rcases List.mem_cons.mp hp with hp | hp
          · right
            refine ⟨0, Nat.succ_pos k, ?_⟩
            subst hp
            simpa using hpeq
          · left; exact ⟨p, hp, by simpa using hpeq⟩
        · right; exact ⟨j + 1, by omega, by simpa using heq⟩

/-- C4: for the identity column values `["A1","A1","B2"]` exactly one
`unique` error is emitted, at display row 3, whose message references the
first occurrence at display row 2; and in general every error the
uniqueness pass emits sits at a row whose nonempty trimmed stringified
value exactly equals that of some strictly earlier row — so the earliest
occurrence of a value is never flagged, only exact string matches are
flagged, and blank identity values are never flagged. -/
theorem unique_duplicate_flagged :
    checkUniqueConstraints
        [[("id", some (Value.str "A1"))], [("id", some (Value.str "A1"))],
         [("id", some (Value.str "B2"))]] ["id"] =
      [⟨"A3", 3, "id", "Duplicate value found (also in row 2)", ErrKind.unique⟩] ∧
    ∀ (h : String) (data : List Record) (e : ValidationError),
      e ∈ uniqueScan h 0 [] 0 data →
      ∃ k, k < data.length ∧ e.row = k + 2 ∧
        uniqueValue (data.getD k default) h ≠ "" ∧
        ∃ j < k, uniqueValue (data.getD j default) h =
          uniqueValue (data.getD k default) h := by
  constructor
  · decide
  · intro h data e he
    obtain ⟨k, hk, hrow, hne, hor⟩ := uniqueScan_mem he
    refine ⟨k, hk, by omega, hne, ?_⟩
    rcases hor with ⟨p, hp, _⟩ | hj
    · exact absurd hp (List.not_mem_nil p)
    · exact hj

/-- Witness for C4's general part at the concrete `["A1","A1","B2"]` column. -/
theorem unique_duplicate_flagged_witness :
    ∃ k, k < ([[("id", some (Value.str "A1"))], [("id", some (Value.str "A1"))],
        [("id", some (Value.str "B2"))]] : List Record).length ∧
      (⟨"A3", 3, "id", "Duplicate value found (also in row 2)",
        ErrKind.unique⟩ : ValidationError).row = k + 2 ∧
      uniqueValue (([[("id", some (Value.str "A1"))], [("id", some (Value.str "A1"))],
        [("id", some (Value.str "B2"))]] : List Record).getD k default) "id" ≠ "" ∧
      ∃ j < k, uniqueValue (([[("id", some (Value.str "A1"))],
          [("id", some (Value.str "A1"))],
          [("id", some (Value.str "B2"))]] : List Record).getD j default) "id" =
        uniqueValue (([[("id", some (Value.str "A1"))], [("id", some (Value.str "A1"))],
          [("id", some (Value.str "B2"))]] : List Record).getD k default) "id" :=
  unique_duplicate_flagged.2 "id"
    [[("id", some (Value.str "A1"))], [("id", some (Value.str "A1"))],
     [("id", some (Value.str "B2"))]]
    ⟨"A3", 3, "id", "Duplicate value found (also in row 2)", ErrKind.unique⟩
    (by decide)

/-! ### Order of the emitted errors -/

theorem validateCells_not_unique {r : Record} {i : Nat} :
    ∀ {cur : List String} {j : Nat} {e : ValidationError},
      e ∈ validateCells r i j cur → e.type ≠ ErrKind.unique
  | [], _, _, he => absurd he (List.not_mem_nil _)
  | h :: rest, j, e, he => by
    simp only [validateCells, List.mem_append] at he
    rcases he with he | he
    · exact cellErrors_not_unique he
    · exact validateCells_not_unique he

theorem validateCells_pairwise (r : Record) (i : Nat) :
    ∀ (cur pre : List String) (j : Nat), (pre ++ cur).Nodup →
      (validateCells r i j cur).Pairwise
        (fun e1 e2 => (pre ++ cur).indexOf e1.column ≤ (pre ++ cur).indexOf e2.column)
  | [], _, _, _ => List.Pairwise.nil
  | h :: rest, pre, j, hnd => by
    obtain ⟨hndpre, hndcons, hdisj⟩ := List.nodup_append.mp hnd
    have hpre : h ∉ pre := fun hc => hdisj hc (List.mem_cons_self h rest)
    have hnrest : h ∉ rest := (List.nodup_cons.mp hndcons).1
    simp only [validateCells]
    rw [List.pairwise_append]
    refine ⟨?_, ?_, ?_⟩
    · apply List.pairwise_of_forall_mem_list
      intro a ha b hb
      rw [(cellErrors_row_col ha).2, (cellErrors_row_col hb).2]
    · have heq : (pre ++ [h]) ++ rest = pre ++ h :: rest := by simp
      have hih := validateCells_pairwise r i rest (pre ++ [h]) (j + 1)
        (by rw [heq]; exact hnd)
      rw [heq] at hih
      exact hih
    · intro a ha b hb
      rw [(cellErrors_row_col ha).2]
      have hbcol := (validateCells_row_col hb).2
      have hbpre : b.column ∉ pre :=
        fun hc => hdisj hc (List.mem_cons_of_mem h hbcol)
      have hbh : h ≠ b.column := fun hc => hnrest (hc ▸ hbcol)
      rw [List.indexOf_append_of_not_mem hpre,
        List.indexOf_append_of_not_mem hbpre,
        List.indexOf_cons_self, List.indexOf_cons_ne rest hbh]
      omega

theorem rowErrorsFrom_row_ge {hs : List String} :
    ∀ {data : List Record} {i : Nat} {e : ValidationError},
      e ∈ rowErrorsFrom hs i data → i + 2 ≤ e.row
  | [], _, _, he => absurd he (List.not_mem_nil _)
  | r :: rest, i, e, he => by
    simp only [rowErrorsFrom, List.mem_append] at he
    rcases he with he | he
    · unfold validateRow at he
      exact le_of_eq (validateCells_row_col he).1.symm
    · have := rowErrorsFrom_row_ge he
      omega

theorem rowErrorsFrom_not_unique {hs : List String} :
    ∀ {data : List Record} {i : Nat} {e : ValidationError},
      e ∈ rowErrorsFrom hs i data → e.type ≠ ErrKind.unique
  | [], _, _, he => absurd he (List.not_mem_nil _)
  | r :: rest, i, e, he => by
    simp only [rowErrorsFrom, List.mem_append] at he
    rcases he with he | he
    · unfold validateRow at he
      exact validateCells_not_unique he
    · exact rowErrorsFrom_not_unique he

theorem rowErrorsFrom_pairwise (hs : List String) (hnd : hs.Nodup) :
    ∀ (data : List Record) (i : Nat),
      (rowErrorsFrom hs i data).Pairwise (rowMajorLE hs)
  | [], _ => List.Pairwise.nil
  | r :: rest, i => by
    simp only [rowErrorsFrom]
    rw [List.pairwise_append]
    refine ⟨?_, rowErrorsFrom_pairwise hs hnd rest (i + 1), ?_⟩
    · have hp := validateCells_pairwise r i hs [] 0 (by simpa using hnd)
      unfold validateRow
      refine hp.imp_of_mem ?_
      intro a b ha hb hle
      right
      refine ⟨(validateCells_row_col ha).1.trans (validateCells_row_col hb).1.symm, ?_⟩
      simpa [colIdxOf] using hle
    · intro a ha b hb
      unfold validateRow at ha
      have h1 : a.row = i + 2 := (validateCells_row_col ha).1
      have h2 : i + 3 ≤ b.row := rowErrorsFrom_row_ge hb
      left
      omega

theorem uniqueScan_facts {h : String} {c : Nat} :
    ∀ (seen : List (String × Nat)) (i : Nat) (data : List Record)
      (e : ValidationError), e ∈ uniqueScan h c seen i data →
      e.column = h ∧ e.type = ErrKind.unique ∧ i + 2 ≤ e.row
  | _, _, [], _, he => absurd he (List.not_mem_nil _)
  | seen, i, r :: rest, e, he => by
    simp only [uniqueScan] at he
    by_cases hv : uniqueValue r h = ""
    · rw [if_pos (by simp [hv])] at he
      have hf := uniqueScan_facts seen (i + 1) rest e he
      exact ⟨hf.1, hf.2.1, by omega⟩
    · rw [if_neg (by simp [hv])] at he
      cases hfind : seen.find? (fun p => p.1 == uniqueValue r h) with
      | some p =>
        rw [hfind] at he
        rcases List.mem_cons.mp he with he | he
        · subst he
          refine ⟨rfl, rfl, ?_⟩
          show i + 2 ≤ i + 2
          omega
        · have hf := uniqueScan_facts seen (i + 1) rest e he
          exact ⟨hf.1, hf.2.1, by omega⟩
      | none =>
        rw [hfind] at he
        have hf := uniqueScan_facts ((uniqueValue r h, i) :: seen) (i + 1) rest e he
        exact ⟨hf.1, hf.2.1, by omega⟩

theorem uniqueScan_row_lt {h : String} {c : Nat} :
    ∀ (seen : List (String × Nat)) (i : Nat) (data : List Record),
      (uniqueScan h c seen i data).Pairwise (fun e1 e2 => e1.row < e2.row)
  | _, _, [] => List.Pairwise.nil
  | seen, i, r :: rest => by
    simp only [uniqueScan]
    by_cases hv : uniqueValue r h = ""
    · rw [if_pos (by simp [hv])]
      exact uniqueScan_row_lt seen (i + 1) rest
    · rw [if_neg (by simp [hv])]
      cases hfind : seen.find? (fun p => p.1 == uniqueValue r h) with
      | some p =>
        refine List.Pairwise.cons ?_ (uniqueScan_row_lt seen (i + 1) rest)
        intro e2 he2
        have h2 := (uniqueScan_facts seen (i + 1) rest e2 he2).2.2
        show i + 2 < e2.row
        omega
      | none =>
        exact uniqueScan_row_lt ((uniqueValue r h, i) :: seen) (i + 1) rest

theorem checkUniqueCols_col_mem {data : List Record} :
    ∀ {cur : List String} {c : Nat} {e : ValidationError},
      e ∈ checkUniqueCols data c cur → e.column ∈ cur ∧ e.type = ErrKind.unique
  | [], _, _, he => absurd he (List.not_mem_nil _)
  | h :: rest, c, e, he => by
    simp only [checkUniqueCols, List.mem_append] at he
    rcases he with he | he
    · by_cases hid : isIdentityCol h
      · rw [if_pos hid] at he
        have hf := uniqueScan_facts [] 0 data e he
        exact ⟨hf.1 ▸ List.mem_cons_self h rest, hf.2.1⟩
      · rw [if_neg hid] at he
        exact absurd he (List.not_mem_nil _)
    · have hf := checkUniqueCols_col_mem he
      exact ⟨List.mem_cons_of_mem h hf.1, hf.2⟩

theorem checkUniqueCols_pairwise (data : List Record) :
    ∀ (cur pre : List String), (pre ++ cur).Nodup →
      (checkUniqueCols data pre.length cur).Pairwise (colMajorLT (pre ++ cur))
  | [], _, _ => List.Pairwise.nil
  | h :: rest, pre, hnd => by
    obtain ⟨hndpre, hndcons, hdisj⟩ := List.nodup_append.mp hnd
    have hpre : h ∉ pre := fun hc => hdisj hc (List.mem_cons_self h rest)
    have hnrest : h ∉ rest := (List.nodup_cons.mp hndcons).1
    simp only [checkUniqueCols]
    rw [List.pairwise_append]
    refine ⟨?_, ?_, ?_⟩
    · by_cases hid : isIdentityCol h
      · rw [if_pos hid]
        refine (uniqueScan_row_lt [] 0 data).imp_of_mem ?_
        intro a b ha hb hlt
        right
        have ha1 := (uniqueScan_facts [] 0 data a ha).1
        have hb1 := (uniqueScan_facts [] 0 data b hb).1
        refine ⟨?_, hlt⟩
        unfold colIdxOf
        rw [ha1, hb1]
      · rw [if_neg hid]
        exact List.Pairwise.nil
    · have heq : (pre ++ [h]) ++ rest = pre ++ h :: rest := by simp
      have hih := checkUniqueCols_pairwise data rest (pre ++ [h])
        (by rw [heq]; exact hnd)
      rw [heq] at hih
      simpa using hih
    · intro a ha b hb
      by_cases hid : isIdentityCol h
      case neg =>
        rw [if_neg hid] at ha
        exact absurd ha (List.not_mem_nil _)
      rw [if_pos hid] at ha
      have ha1 := (uniqueScan_facts [] 0 data a ha).1
      have hb1 := (checkUniqueCols_col_mem hb).1
      left
      unfold colIdxOf
      rw [ha1]
      have hbpre : b.column ∉ pre := fun hc => hdisj hc (List.mem_cons_of_mem h hb1)
      have hbh : h ≠ b.column := fun hc => hnrest (hc ▸ hb1)
      rw [List.indexOf_append_of_not_mem hpre, List.indexOf_append_of_not_mem hbpre,
        List.indexOf_cons_self, List.indexOf_cons_ne rest hbh]
      omega

/-- C7: the error sequence is order-stable.  All per-cell row-validation
errors come first, pairwise ordered row-major (by display row, then by
column position), followed by all uniqueness errors, pairwise ordered by
the identity column's position in the header list and then by the row at
which each duplicate occurrence was discovered; no row-validation error is
of kind `unique` and every appended error is. -/
theorem errors_order_stable (hs : List String) (data : List Record)
    (hnd : hs.Nodup) :
    validateAll hs data =
      rowErrorsFrom hs 0 data ++ checkUniqueConstraints data hs ∧
    (∀ e ∈ rowErrorsFrom hs 0 data, e.type ≠ ErrKind.unique) ∧
    (rowErrorsFrom hs 0 data).Pairwise (rowMajorLE hs) ∧
    (∀ e ∈ checkUniqueConstraints data hs, e.type = ErrKind.unique) ∧
    (checkUniqueConstraints data hs).Pairwise (colMajorLT hs) := by
  refine ⟨rfl, ?_, rowErrorsFrom_pairwise hs hnd data 0, ?_, ?_⟩
  · intro e he
    exact rowErrorsFrom_not_unique he
  · intro e he
    exact (checkUniqueCols_col_mem he).2
  · have hp := checkUniqueCols_pairwise data hs [] (by simpa using hnd)
    simpa using hp

/-- Witness for C7 on a concrete upload producing both an email error and a
uniqueness error. -/
theorem errors_order_stable_witness :
    validateAll ["email", "uid"]
        [[("email", some (Value.str "bad")), ("uid", some (Value.str "1"))],
         [("email", some (Value.str "b@x.com")), ("uid", some (Value.str "1"))]] =
      rowErrorsFrom ["email", "uid"] 0
        [[("email", some (Value.str "bad")), ("uid", some (Value.str "1"))],
         [("email", some (Value.str "b@x.com")), ("uid", some (Value.str "1"))]] ++
      checkUniqueConstraints
        [[("email", some (Value.str "bad")), ("uid", some (Value.str "1"))],
         [("email", some (Value.str "b@x.com")), ("uid", some (Value.str "1"))]]
        ["email", "uid"] ∧
    (∀ e ∈ rowErrorsFrom ["email", "uid"] 0
        [[("email", some (Value.str "bad")), ("uid", some (Value.str "1"))],
         [("email", some (Value.str "b@x.com")), ("uid", some (Value.str "1"))]],
      e.type ≠ ErrKind.unique) ∧
    (rowErrorsFrom ["email", "uid"] 0
        [[("email", some (Value.str "bad")), ("uid", some (Value.str "1"))],
         [("email", some (Value.str "b@x.com")), ("uid", some (Value.str "1"))]]).Pairwise
      (rowMajorLE ["email", "uid"]) ∧
    (∀ e ∈ checkUniqueConstraints
        [[("email", some (Value.str "bad")), ("uid", some (Value.str "1"))],
         [("email", some (Value.str "b@x.com")), ("uid", some (Value.str "1"))]]
        ["email", "uid"],
      e.type = ErrKind.unique) ∧
    (checkUniqueConstraints
        [[("email", some (Value.str "bad")), ("uid", some (Value.str "1"))],
         [("email", some (Value.str "b@x.com")), ("uid", some (Value.str "1"))]]
        ["email", "uid"]).Pairwise (colMajorLT ["email", "uid"]) :=
  errors_order_stable ["email", "uid"]
    [[("email", some (Value.str "bad")), ("uid", some (Value.str "1"))],
     [("email", some (Value.str "b@x.com")), ("uid", some (Value.str "1"))]]
    (by decide)

/-! ### Sort and normalize -/

theorem find?_first {p : String → Bool} :
    ∀ {hs : List String} {v : String}, hs.find? p = some v →
      ∃ j, j < hs.length ∧ hs.getD j "" = v ∧ p v = true ∧
        ∀ i, i < j → p (hs.getD i "") = false
  | [], _, hf => by simp at hf
  | h :: rest, v, hf => by
    by_cases hp : p h
    · rw [List.find?_cons_of_pos rest hp] at hf
      refine ⟨0, by simp, by simpa using Option.some_injective _ hf, ?_, ?_⟩
      · rw [← Option.some_injective _ hf]
        exact hp
      · intro i hi
        exact absurd hi (Nat.not_lt_zero i)
    · rw [List.find?_cons_of_neg rest hp] at hf
      obtain ⟨j, hj, hget, hpv, hfirst⟩ := find?_first hf
      refine ⟨j + 1, by simpa using Nat.succ_lt_succ hj, by simpa using hget, hpv, ?_⟩
      intro i hi
      cases i with
      | zero => simpa using hp
      | succ i =>
        have : i < j := by omega
        simpa using hfirst i this

theorem sortRecords_le_trans (col : String) :
    ∀ (a b c : Record),
      decide (sortKeyOf col a ≤ sortKeyOf col b) →
      decide (sortKeyOf col b ≤ sortKeyOf col c) →
      decide (sortKeyOf col a ≤ sortKeyOf col c) := by
  intro a b c hab hbc
  simp only [decide_eq_true_eq] at hab hbc ⊢
  exact le_trans hab hbc

theorem sortRecords_le_total (col : String) :
    ∀ (a b : Record),
      decide (sortKeyOf col a ≤ sortKeyOf col b) ||
      decide (sortKeyOf col b ≤ sortKeyOf col a) := by
  intro a b
  rcases le_total (sortKeyOf col a) (sortKeyOf col b) with hc | hc <;> simp [hc]

/-- Stability of the modelled sort: the records carrying any fixed sort key
appear in the output in exactly their input order. -/
theorem sortRecords_stable (col : String) (data : List Record) (k : String) :
    (sortRecords col data).filter (fun r => sortKeyOf col r == k) =
      data.filter (fun r => sortKeyOf col r == k) := by
  unfold sortRecords
  have hperm : ((data.mergeSort
      (fun a b => decide (sortKeyOf col a ≤ sortKeyOf col b))).filter
        (fun r => sortKeyOf col r == k)).Perm
      (data.filter (fun r => sortKeyOf col r == k)) :=
    (List.mergeSort_perm data _).filter _
  have hpw : (data.filter (fun r => sortKeyOf col r == k)).Pairwise
      (fun a b => (decide (sortKeyOf col a ≤ sortKeyOf col b)) = true) := by
    apply List.pairwise_of_forall_mem_list
    intro a ha b hb
    have hka := List.of_mem_filter ha
    have hkb := List.of_mem_filter hb
    simp only [beq_iff_eq] at hka hkb
    simp [hka, hkb]
  have hsub : List.Sublist (data.filter (fun r => sortKeyOf col r == k))
      (data.mergeSort (fun a b => decide (sortKeyOf col a ≤ sortKeyOf col b))) :=
    List.sublist_mergeSort (sortRecords_le_trans col) (sortRecords_le_total col)
      hpw (List.filter_sublist data)
  have hsub2 : List.Sublist (data.filter (fun r => sortKeyOf col r == k))
      ((data.mergeSort
        (fun a b => decide (sortKeyOf col a ≤ sortKeyOf col b))).filter
        (fun r => sortKeyOf col r == k)) := by
    have hself : (data.filter (fun r => sortKeyOf col r == k)).filter
        (fun r => sortKeyOf col r == k) =
        data.filter (fun r => sortKeyOf col r == k) := by
      rw [List.filter_eq_self]
      intro a ha
      exact (List.mem_filter.mp ha).2
    have := hsub.filter (fun r => sortKeyOf col r == k)
    rw [hself] at this
    exact this
  exact (hsub2.eq_of_length hperm.length_eq.symm).symm

/-- C6: on clean data the dataset is produced, its records are a permutation
of the input records sorted by the case-folded stringified value of the sort
column (blank and absent cells compare as the empty string via the falsy
guard in the key), the sort is stable (records with equal keys keep their
input order), and the sort column is the first header whose name
case-insensitively contains `name` or `title`, the first header overall if
none does. -/
theorem sort_normalize_spec (hs : List String) (rows : List (List (Option Value)))
    (hne : hs ≠ []) (hok : validateAll hs (rows.map (mkRecord hs)) = []) :
    ∃ d, processFile hs rows = ⟨some d, []⟩ ∧
      d.originalData.Perm (rows.map (mkRecord hs)) ∧
      d.originalData.Pairwise
        (fun a b => sortKeyOf (nameColumn hs) a ≤ sortKeyOf (nameColumn hs) b) ∧
      (∀ k, d.originalData.filter (fun r => sortKeyOf (nameColumn hs) r == k) =
        (rows.map (mkRecord hs)).filter
          (fun r => sortKeyOf (nameColumn hs) r == k)) ∧
      ∃ j, j < hs.length ∧ nameColumn hs = hs.getD j "" ∧
        (∀ i, i < j → isNameTitleCol (hs.getD i "") = false) ∧
        (isNameTitleCol (hs.getD j "") = true ∨
          (j = 0 ∧ ∀ i, i < hs.length → isNameTitleCol (hs.getD i "") = false)) := by
  refine ⟨⟨hs, (sortRecords (nameColumn hs) (rows.map (mkRecord hs))).map
      (fun r => hs.map (getVal r)),
      sortRecords (nameColumn hs) (rows.map (mkRecord hs))⟩, ?_, ?_, ?_, ?_, ?_⟩
  · simp only [processFile, hok]
    rfl
  · exact List.mergeSort_perm (rows.map (mkRecord hs)) _
  · have hs1 := List.sorted_mergeSort
      (sortRecords_le_trans (nameColumn hs)) (sortRecords_le_total (nameColumn hs))
      (rows.map (mkRecord hs))
    refine hs1.imp ?_
    intro a b hab
    simpa using hab
  · intro k
    exact sortRecords_stable (nameColumn hs) (rows.map (mkRecord hs)) k
  · unfold nameColumn
    cases hfind : hs.find? isNameTitleCol with
    | some v =>
      obtain ⟨j, hj, hget, hpv, hfirst⟩ := find?_first hfind
      refine ⟨j, hj, ?_, hfirst, Or.inl (hget ▸ hpv)⟩
      simp only [Option.getD_some]
      exact hget.symm
    | none =>
      have hall := List.find?_eq_none.mp hfind
      refine ⟨0, by cases hs with | nil => exact absurd rfl hne | cons a l => simp,
        by simp, ?_, ?_⟩
      · intro i hi
        exact absurd hi (Nat.not_lt_zero i)
      · refine Or.inr ⟨rfl, ?_⟩
        intro i hi
        have hmem : hs.getD i "" ∈ hs := by
          rw [List.getD_eq_getElem hs "" hi]
          exact List.getElem_mem hi
        simpa using hall _ hmem

/-- Witness for C6 on a concrete clean two-row upload sorted on `name`. -/
theorem sort_normalize_spec_witness :
    ∃ d, processFile ["name"] [[some (Value.str "b")], [some (Value.str "a")]] =
        ⟨some d, []⟩ ∧
      d.originalData.Perm
        (([[some (Value.str "b")], [some (Value.str "a")]] :
          List (List (Option Value))).map (mkRecord ["name"])) ∧
      d.originalData.Pairwise
        (fun a b => sortKeyOf (nameColumn ["name"]) a ≤
          sortKeyOf (nameColumn ["name"]) b) ∧
      (∀ k, d.originalData.filter
          (fun r => sortKeyOf (nameColumn ["name"]) r == k) =
        (([[some (Value.str "b")], [some (Value.str "a")]] :
          List (List (Option Value))).map (mkRecord ["name"])).filter
          (fun r => sortKeyOf (nameColumn ["name"]) r == k)) ∧
      ∃ j, j < (["name"] : List String).length ∧
        nameColumn ["name"] = (["name"] : List String).getD j "" ∧
        (∀ i, i < j → isNameTitleCol ((["name"] : List String).getD i "") = false) ∧
        (isNameTitleCol ((["name"] : List String).getD j "") = true ∨
          (j = 0 ∧ ∀ i, i < (["name"] : List String).length →
            isNameTitleCol ((["name"] : List String).getD i "") = false)) :=
  sort_normalize_spec ["name"] [[some (Value.str "b")], [some (Value.str "a")]]
    (by decide) (by decide)
